import Mathlib

/-!
# Verification of the snet-daemon blockchain task core

Shallow embedding of `src/blockchain/tasks.go`: the event synchronization
loop (`processEvents`), the completion submission worker
(`processJobCompletions`) and the recovery scanner
(`submitOldJobsForCompletion`), together with the job-record store they
share.

Byte strings (addresses, signatures) are modelled as `List Nat`.  The
bolt buckets are modelled as association lists; the JSON blob stored for
a job is abstracted to "bytes that decode to a job `j`" versus "bytes
that fail to decode", which is all the Go code ever observes of it.
-/

namespace SnetDaemon

/-- A byte string (job address, consumer address, signature…). -/
abbrev Bytes := List Nat

/-- Modelled from the spec: the job lifecycle state stored in a record
(`db.Job.JobState`, written from the constants `jobPendingState` /
`jobFundedState`; the `db` package is outside `src/`).  `unset` is the Go
zero value of the field, present only in a freshly allocated `&db.Job{}`
before the merge overlays it. -/
inductive JobState where
  | unset
  | pending
  | funded
deriving DecidableEq, Repr

/-- Modelled from the spec (§3) and the field uses in `src/blockchain/tasks.go`:
the `db.Job` record.  `completed` is the `Completed` flag ("completion
requested" in the spec); `jobSignature` the stored completion signature. -/
structure Job where
  jobAddress : Bytes
  consumer : Bytes
  jobState : JobState
  completed : Bool
  jobSignature : Bytes
deriving DecidableEq, Repr

/-- The Go zero value `&db.Job{}`. -/
def zeroJob : Job :=
  { jobAddress := [], consumer := [], jobState := .unset
    completed := false, jobSignature := [] }

/-- The serialized blob stored in the job bucket, abstracted to what
`json.Unmarshal` can observe of it: either bytes that decode to a job, or
bytes that fail to decode. -/
inductive JobBytes where
  | good (j : Job)
  | corrupt
deriving DecidableEq, Repr

/-- The job bucket: an association list from job address to stored blob
(bolt keys are unique; first-match semantics). -/
abbrev Store := List (Bytes × JobBytes)

/-- `bucket.Get`: first binding for the key, if any. -/
def storeGet : Store → Bytes → Option JobBytes
  | [], _ => none
  | (k, v) :: rest, a => if k = a then some v else storeGet rest a

/-- `bucket.Put`: replace the first binding for the key, or append. -/
def storePut : Store → Bytes → JobBytes → Store
  | [], a, v => [(a, v)]
  | (k, w) :: rest, a, v =>
      if k = a then (a, v) :: rest else (k, w) :: storePut rest a v

/-- `bucket.Delete`: remove the key. -/
def storeDel : Store → Bytes → Store
  | [], _ => []
  | (k, w) :: rest, a => if k = a then storeDel rest a else (k, w) :: storeDel rest a

/-- The job value the Go merge starts from: `job := &db.Job{}` followed by
`json.Unmarshal(jobBytes, job)` when bytes are present, whose error is
discarded — so absent bytes and corrupt bytes both leave the zero job. -/
def decodeStored : Option JobBytes → Option Job
  | some (.good j) => some j
  | some .corrupt => none
  | none => none

/-- JobCreated merge (tasks.go lines 117-132): overlay the job address,
consumer and `state = Pending` onto the decoded existing record (or the
zero job). -/
def mergeCreatedJob (existing : Option Job) (a c : Bytes) : Job :=
  let job := existing.getD zeroJob
  { job with jobAddress := a, consumer := c, jobState := .pending }

/-- JobFunded merge (tasks.go lines 156-169): overlay the job address and
`state = Funded`; every other field of the decoded record is kept. -/
def mergeFundedJob (existing : Option Job) (a : Bytes) : Job :=
  let job := existing.getD zeroJob
  { job with jobAddress := a, jobState := .funded }

/-- `json.Marshal` abstracted: total for this record type, and it
round-trips (the blob it produces decodes back to the same job).  Kept as
an explicit function so the `err != nil` branch of the Go code can also be
examined against an arbitrary failing marshaller. -/
def realMarshal (j : Job) : Option JobBytes := some (.good j)

/-- Processing of one JobCreated log against the store, parameterized by
the marshaller (tasks.go lines 117-139): read, decode (error discarded),
overlay, marshal; on marshal success `Put`, on failure log and skip. -/
def applyCreatedM (marshal : Job → Option JobBytes) (s : Store) (a c : Bytes) : Store :=
  let job := mergeCreatedJob (decodeStored (storeGet s a)) a c
  match marshal job with
  | some bs => storePut s a bs
  | none => s

/-- Processing of one JobFunded log (tasks.go lines 156-176). -/
def applyFundedM (marshal : Job → Option JobBytes) (s : Store) (a : Bytes) : Store :=
  let job := mergeFundedJob (decodeStored (storeGet s a)) a
  match marshal job with
  | some bs => storePut s a bs
  | none => s

/-- JobCreated log processing with the real (total, round-tripping)
marshaller, as `processEvents` runs it. -/
def applyCreated (s : Store) (a c : Bytes) : Store := applyCreatedM realMarshal s a c

/-- JobFunded log processing with the real marshaller. -/
def applyFunded (s : Store) (a : Bytes) : Store := applyFundedM realMarshal s a

/-- JobCompleted log processing (tasks.go lines 193-202): unconditional
delete of the record. -/
def applyCompleted (s : Store) (a : Bytes) : Store := storeDel s a

/-! ## The event synchronization loop (`processEvents`) -/

/-- State carried across iterations: the persisted checkpoint (the
`lastBlock` key of the chain bucket, absent before the first write) and
the job bucket. -/
structure LoopState where
  checkpoint : Option Nat
  jobs : Store
deriving DecidableEq, Repr

/-- One iteration's interaction with the ledger: the `eth_blockNumber`
result (`none` = RPC error) and the three `FilterLogs` results (`none` =
query error).  A JobCreated log carries `(jobAddress, consumer)` decoded
from its data; JobFunded and JobCompleted logs carry the job address. -/
structure IterInput where
  height : Option Nat
  createdLogs : Option (List (Bytes × Bytes))
  fundedLogs : Option (List Bytes)
  completedLogs : Option (List Bytes)
deriving DecidableEq, Repr

/-- `fromBlock` as the iteration computes it: `lastBlock + 1`, where
`lastBlock` is the stored checkpoint if present and `currentBlock - 1`
otherwise (tasks.go lines 93-104).  Computed in `Int` exactly as Go's
`big.Int` does (it may be `0` via `-1 + 1` when the chain is at height 0
with no checkpoint). -/
def fromBlockOf (cp : Option Nat) (c : Nat) : Int :=
  (match cp with
   | some v => (v : Int)
   | none => (c : Int) - 1) + 1

/-- Fold one kind's logs into the store; a failed query (`none`) leaves
the store untouched (the Go code only logs it).  JobCreated kind. -/
def applyCreatedLogs (s : Store) : Option (List (Bytes × Bytes)) → Store
  | some logs => logs.foldl (fun s l => applyCreated s l.1 l.2) s
  | none => s

/-- JobFunded kind; a failed query leaves the store untouched. -/
def applyFundedLogs (s : Store) : Option (List Bytes) → Store
  | some logs => logs.foldl applyFunded s
  | none => s

/-- JobCompleted kind; a failed query leaves the store untouched. -/
def applyCompletedLogs (s : Store) : Option (List Bytes) → Store
  | some logs => logs.foldl applyCompleted s
  | none => s

/-- One iteration of `processEvents` (tasks.go lines 80-218), returning
the new state together with the block range over which the three
`FilterLogs` queries were issued (`none` when no query was issued: height
read failed, or `fromBlock > currentBlock`).  When `fromBlock ≤
currentBlock` the three kinds are processed independently in the order
Created, Funded, Completed, and the checkpoint is then written to the
current height unconditionally. -/
def processIterFull (inp : IterInput) (st : LoopState) : LoopState × Option (Int × Int) :=
  match inp.height with
  | none => (st, none)
  | some c =>
      let fromBlock := fromBlockOf st.checkpoint c
      if fromBlock ≤ (c : Int) then
        let jobs1 := applyCreatedLogs st.jobs inp.createdLogs
        let jobs2 := applyFundedLogs jobs1 inp.fundedLogs
        let jobs3 := applyCompletedLogs jobs2 inp.completedLogs
        ({ checkpoint := some c, jobs := jobs3 }, some (fromBlock, (c : Int)))
      else (st, none)

/-- One iteration's state effect. -/
def processIteration (inp : IterInput) (st : LoopState) : LoopState :=
  (processIterFull inp st).1

/-- A whole run of the loop over a sequence of iteration inputs. -/
def runLoop (inps : List IterInput) (st : LoopState) : LoopState :=
  inps.foldl (fun s i => processIteration i s) st

/-! ## The completion submission worker (`processJobCompletions`)

The worker drains the queue one item at a time.  Per item (tasks.go
lines 32-62): parse the signature — a failure is logged but, the loop
body not being left, the `CompleteJob` call is still made with the
components the failed parse returned; on a submission error log and move
on; on success poll `TransactionByHash` once a second until the reported
`isPending` is false.  go-ethereum's `TransactionByHash` returns
`isPending = false` (the Go zero value) together with an error, and the
call's error is discarded (`_, isPending, _ = …`), so an erroring poll
reads as "not pending". -/

/-- One confirmation poll: the ground-truth pending status of the
submitted transaction at that instant, and whether the status query
itself succeeded. -/
structure PollStep where
  truePending : Bool
  queryOk : Bool
deriving DecidableEq, Repr

/-- The `isPending` value the worker observes from a poll: the true
status when the query succeeds, the zero value `false` when it errors. -/
def reportedPending (p : PollStep) : Bool :=
  if p.queryOk then p.truePending else false

/-- The confirmation wait loop over the successive poll outcomes:
`none` when the loop never exits (kept polling past the given outcomes),
`some tp` when it exits at a poll whose ground-truth pending status was
`tp` — `tp = true` means the worker left the wait while the transaction
was still pending on the ledger. -/
def waitExitInfo : List PollStep → Option Bool
  | [] => none
  | p :: rest =>
      if reportedPending p then waitExitInfo rest else some p.truePending

/-- The environment of one dequeued completion request: whether
`parseSignature` succeeds, whether the `CompleteJob` submission succeeds,
and the successive confirmation-poll outcomes. -/
structure ItemEnv where
  parseOk : Bool
  submitOk : Bool
  polls : List PollStep
deriving DecidableEq, Repr

/-- Observable worker actions. `submit b` is a `CompleteJob` call, with
`b = true` when it was made with the components of a failed signature
parse; `waitExit tp` is leaving the confirmation wait, with `tp` the
ground-truth pending status at the exiting poll. -/
inductive WEv where
  | parseError
  | submit (badSig : Bool)
  | submitError
  | waitExit (truePendingAtExit : Bool)
deriving DecidableEq, Repr

/-- The worker's action trace for one dequeued item: a failed parse is
logged and then the submission is made anyway; a failed submission is
logged; a successful one is followed by the confirmation wait (which may
never exit). -/
def itemTrace (e : ItemEnv) : List WEv :=
  (if e.parseOk then [] else [.parseError]) ++ [.submit (!e.parseOk)] ++
    (if e.submitOk then
      match waitExitInfo e.polls with
      | some tp => [.waitExit tp]
      | none => []
     else [.submitError])

/-- The item blocks the worker forever: submission succeeded and the
confirmation wait never exits. -/
def itemBlocks (e : ItemEnv) : Bool :=
  e.submitOk && (waitExitInfo e.polls).isNone

/-- The worker's trace over a queue of items: items are processed
strictly one after the other, and a blocking item stops the worker. -/
def runWorker : List ItemEnv → List WEv
  | [] => []
  | e :: rest => itemTrace e ++ (if itemBlocks e then [] else runWorker rest)

/-- Number of unconfirmed submitted transactions outstanding after one
more action: a `CompleteJob` call opens one; a submission error closes it
(no transaction was created); a wait exit closes it only when the
transaction was genuinely no longer pending — an exit while the
transaction was still pending leaves it outstanding. -/
def stepCount (n : Nat) : WEv → Nat
  | .parseError => n
  | .submit _ => n + 1
  | .submitError => n - 1
  | .waitExit tp => if tp then n else n - 1

/-- Outstanding-transaction count after a trace. -/
def countAfter (n : Nat) (evs : List WEv) : Nat :=
  evs.foldl stepCount n

/-- Single-flight checker: scanning the trace from `n` outstanding
transactions, the count stays at most 1 after every action. -/
def flightOK : Nat → List WEv → Bool
  | _, [] => true
  | n, ev :: rest =>
      let m := stepCount n ev
      decide (m ≤ 1) && flightOK m rest

/-! ## Per-event view of store updates, and orderings -/

/-- A single ledger event as the store sees it: the per-kind processing
of one matching log. -/
inductive StoreEv where
  | created (a c : Bytes)
  | funded (a : Bytes)
  | completed (a : Bytes)
deriving DecidableEq, Repr

/-- Apply one event's store update. -/
def applyEv (s : Store) : StoreEv → Store
  | .created a c => applyCreated s a c
  | .funded a => applyFunded s a
  | .completed a => applyCompleted s a

/-- Apply a sequence of events in order. -/
def applyEvs (s : Store) (evs : List StoreEv) : Store :=
  evs.foldl applyEv s

/-- The record stored at `a`, when present and decodable, is in the
Funded state. -/
def fundedAt (s : Store) (a : Bytes) : Prop :=
  ∀ j, decodeStored (storeGet s a) = some j → j.jobState = .funded

/-- Whether an event is a Created event for address `a`. -/
def isCreatedAt (a : Bytes) : StoreEv → Bool
  | .created b _ => b = a
  | _ => false

/-- Checkpoint ordering: the absent checkpoint precedes everything; a
stored checkpoint precedes exactly the stored checkpoints that are at
least as large (so a present checkpoint can neither disappear nor
decrease). -/
def cpLE : Option Nat → Option Nat → Prop
  | none, _ => True
  | some x, b => ∃ y, b = some y ∧ x ≤ y

/-! ## Store lemmas -/

theorem storeGet_storePut_self (s : Store) (a : Bytes) (v : JobBytes) :
    storeGet (storePut s a v) a = some v := by
  induction s with
  | nil => simp [storePut, storeGet]
  | cons kv rest ih =>
      obtain ⟨k, w⟩ := kv
      by_cases hk : k = a
      · simp [storePut, storeGet, hk]
      · simp [storePut, storeGet, hk, ih]

theorem storeGet_storePut_ne (s : Store) (a b : Bytes) (v : JobBytes) (h : b ≠ a) :
    storeGet (storePut s a v) b = storeGet s b := by
  induction s with
  | nil => simp [storePut, storeGet, Ne.symm h]
  | cons kv rest ih =>
      obtain ⟨k, w⟩ := kv
      by_cases hk : k = a
      · subst hk
        simp [storePut, storeGet, Ne.symm h]
      · simp [storePut, storeGet, hk, ih]

theorem storePut_storePut (s : Store) (a : Bytes) (v : JobBytes) :
    storePut (storePut s a v) a v = storePut s a v := by
  induction s with
  | nil => simp [storePut]
  | cons kv rest ih =>
      obtain ⟨k, w⟩ := kv
      by_cases hk : k = a
      · simp [storePut, hk]
      · simp [storePut, hk, ih]

theorem storeGet_storeDel_self (s : Store) (a : Bytes) :
    storeGet (storeDel s a) a = none := by
  induction s with
  | nil => simp [storeDel, storeGet]
  | cons kv rest ih =>
      obtain ⟨k, w⟩ := kv
      by_cases hk : k = a
      · simp [storeDel, hk, ih]
      · simp [storeDel, storeGet, hk, ih]

theorem storeGet_storeDel_ne (s : Store) (a b : Bytes) (h : b ≠ a) :
    storeGet (storeDel s a) b = storeGet s b := by
  induction s with
  | nil => simp [storeDel, storeGet]
  | cons kv rest ih =>
      obtain ⟨k, w⟩ := kv
      by_cases hk : k = a
      · subst hk
        simp [storeDel, storeGet, Ne.symm h, ih]
      · simp [storeDel, storeGet, hk, ih]

/-- `applyCreated` is a `Put` of the merged record (the real marshaller
always succeeds). -/
theorem applyCreated_eq (s : Store) (a c : Bytes) :
    applyCreated s a c
      = storePut s a (.good (mergeCreatedJob (decodeStored (storeGet s a)) a c)) := rfl

/-- `applyFunded` is a `Put` of the merged record. -/
theorem applyFunded_eq (s : Store) (a : Bytes) :
    applyFunded s a
      = storePut s a (.good (mergeFundedJob (decodeStored (storeGet s a)) a)) := rfl

/-- Re-merging an already-merged Created event changes nothing. -/
theorem mergeCreatedJob_idem (x : Option Job) (a c : Bytes) :
    mergeCreatedJob (some (mergeCreatedJob x a c)) a c = mergeCreatedJob x a c := rfl

/-- Re-merging an already-merged Funded event changes nothing. -/
theorem mergeFundedJob_idem (x : Option Job) (a : Bytes) :
    mergeFundedJob (some (mergeFundedJob x a)) a = mergeFundedJob x a := rfl

/-! ## Loop lemmas -/

theorem cpLE_refl (a : Option Nat) : cpLE a a := by
  cases a with
  | none => trivial
  | some x => exact ⟨x, rfl, le_refl x⟩

theorem cpLE_trans (a b c : Option Nat) (h1 : cpLE a b) (h2 : cpLE b c) : cpLE a c := by
  cases a with
  | none => trivial
  | some x =>
      obtain ⟨y, rfl, hxy⟩ := h1
      obtain ⟨z, rfl, hyz⟩ := h2
      exact ⟨z, rfl, le_trans hxy hyz⟩

/-- One iteration never moves the checkpoint down: a write happens only
when `checkpoint + 1 ≤ currentBlock`. -/
theorem cpLE_step (inp : IterInput) (st : LoopState) :
    cpLE st.checkpoint (processIteration inp st).checkpoint := by
  obtain ⟨h, cl, fl, col⟩ := inp
  cases h with
  | none => exact cpLE_refl _
  | some c =>
      by_cases hle : fromBlockOf st.checkpoint c ≤ (c : Int)
      · unfold processIteration processIterFull
        dsimp only
        rw [if_pos hle]
        cases hcp : st.checkpoint with
        | none => trivial
        | some v =>
            refine ⟨c, rfl, ?_⟩
            rw [hcp] at hle
            simp only [fromBlockOf] at hle
            omega
      · unfold processIteration processIterFull
        dsimp only
        rw [if_neg hle]
        exact cpLE_refl _

/-! ## Claim theorems -/

/-- C1: in every iteration of the event synchronization loop in which
`fromBlock ≤ currentBlock`, the checkpoint is persisted as the current
height at the end of the iteration regardless of the outcome of the three
per-kind log queries, and the three kinds are processed independently: a
failed kind leaves the store untouched while the other kinds and the
checkpoint write still run. -/
theorem claim_C1 (inp : IterInput) (st : LoopState) (c : Nat)
    (hh : inp.height = some c)
    (hle : fromBlockOf st.checkpoint c ≤ (c : Int)) :
    (processIteration inp st).checkpoint = some c ∧
    (processIteration inp st).jobs =
      applyCompletedLogs
        (applyFundedLogs (applyCreatedLogs st.jobs inp.createdLogs) inp.fundedLogs)
        inp.completedLogs := by
  obtain ⟨h, cl, fl, col⟩ := inp
  have hh' : h = some c := hh
  subst hh'
  unfold processIteration processIterFull
  dsimp only
  rw [if_pos hle]
  exact ⟨rfl, rfl⟩

/-- C1 witness: checkpoint 50, height 55, Funded query failed, one
Created log — the checkpoint still becomes 55 and the Created merge is
applied. -/
theorem claim_C1_witness :
    (processIteration ⟨some 55, some [([170], [187])], none, some []⟩
        ⟨some 50, []⟩).checkpoint = some 55 ∧
    (processIteration ⟨some 55, some [([170], [187])], none, some []⟩
        ⟨some 50, []⟩).jobs =
      applyCompletedLogs
        (applyFundedLogs (applyCreatedLogs [] (some [([170], [187])])) none)
        (some []) :=
  claim_C1 ⟨some 55, some [([170], [187])], none, some []⟩ ⟨some 50, []⟩ 55 rfl (by decide)

/-- C3: over any sequence of iterations, with any heights and any
pattern of per-kind query outcomes, the persisted checkpoint never
decreases (and never disappears once written). -/
theorem claim_C3 (inps : List IterInput) (st : LoopState) :
    cpLE st.checkpoint (runLoop inps st).checkpoint := by
  induction inps generalizing st with
  | nil => exact cpLE_refl _
  | cons i rest ih =>
      exact cpLE_trans _ _ _ (cpLE_step i st) (ih (processIteration i st))

/-- C4: the merge-upsert of a Created or a Funded event is idempotent:
applying the same event twice to any store leaves exactly the store
obtained by applying it once. -/
theorem claim_C4 (s : Store) (a c : Bytes) :
    applyCreated (applyCreated s a c) a c = applyCreated s a c ∧
    applyFunded (applyFunded s a) a = applyFunded s a := by
  constructor
  · rw [applyCreated_eq (applyCreated s a c) a c]
    rw [applyCreated_eq s a c]
    rw [storeGet_storePut_self]
    simp only [decodeStored]
    rw [mergeCreatedJob_idem]
    exact storePut_storePut s a _
  · rw [applyFunded_eq (applyFunded s a) a]
    rw [applyFunded_eq s a]
    rw [storeGet_storePut_self]
    simp only [decodeStored]
    rw [mergeFundedJob_idem]
    exact storePut_storePut s a _

/-- C8: merging a Funded event for an address whose stored record decodes
to `j` stores exactly `j` with `state := Funded` and the job address
rewritten; the consumer, completion flag and signature are preserved, and
every other key of the store is untouched. -/
theorem claim_C8 (s : Store) (a : Bytes) (j : Job)
    (h : decodeStored (storeGet s a) = some j) :
    storeGet (applyFunded s a) a = some (.good (mergeFundedJob (some j) a)) ∧
    (mergeFundedJob (some j) a).consumer = j.consumer ∧
    (mergeFundedJob (some j) a).completed = j.completed ∧
    (mergeFundedJob (some j) a).jobSignature = j.jobSignature ∧
    (mergeFundedJob (some j) a).jobState = .funded ∧
    (mergeFundedJob (some j) a).jobAddress = a ∧
    ∀ b, b ≠ a → storeGet (applyFunded s a) b = storeGet s b := by
  refine ⟨?_, rfl, rfl, rfl, rfl, rfl, ?_⟩
  · rw [applyFunded_eq, h]
    exact storeGet_storePut_self s a _
  · intro b hb
    rw [applyFunded_eq]
    exact storeGet_storePut_ne s a b _ hb

/-- C8 witness: the spec's concrete scenario — record
`{0xAA, consumer 0xBB, Pending}` plus a Funded log for `0xAA` yields
`{0xAA, consumer 0xBB, Funded}`, and an unrelated key is untouched. -/
theorem claim_C8_witness :
    storeGet (applyFunded [([170], JobBytes.good ⟨[170], [187], .pending, false, []⟩)] [170]) [170]
      = some (JobBytes.good ⟨[170], [187], JobState.funded, false, []⟩) ∧
    storeGet (applyFunded [([170], JobBytes.good ⟨[170], [187], .pending, false, []⟩)] [170]) [9]
      = storeGet [([170], JobBytes.good ⟨[170], [187], .pending, false, []⟩)] [9] :=
  ⟨(claim_C8 [([170], JobBytes.good ⟨[170], [187], .pending, false, []⟩)] [170]
      ⟨[170], [187], .pending, false, []⟩ rfl).1,
   (claim_C8 [([170], JobBytes.good ⟨[170], [187], .pending, false, []⟩)] [170]
      ⟨[170], [187], .pending, false, []⟩ rfl).2.2.2.2.2.2 [9] (by decide)⟩

/-- C9 counterexample: with no checkpoint stored and current height 100,
the iteration does issue the per-kind log queries (over the single-block
range `[100, 100]`), contradicting "without scanning any range". -/
theorem claim_C9_counterexample :
    (processIterFull ⟨some 100, some [], some [], some []⟩ ⟨none, []⟩).2 ≠ none := by
  decide

/-- C9 (amended): with no checkpoint stored and current height 100, the
iteration initializes the checkpoint logically to 99 (so `fromBlock` is
100), issues the three per-kind log queries over the single-block range
`[100, 100]`, and persists checkpoint 100. -/
theorem claim_C9 :
    fromBlockOf none 100 = 100 ∧
    (processIterFull ⟨some 100, some [], some [], some []⟩ ⟨none, []⟩).1.checkpoint
      = some 100 ∧
    (processIterFull ⟨some 100, some [], some [], some []⟩ ⟨none, []⟩).2
      = some (100, 100) := by
  decide

/-- C10: when a confirmation-status query errors, the error is discarded
and the observed pending flag is the zero value `false`, so the wait loop
exits at that poll — even if the transaction was in truth still pending
(`tp` arbitrary) — and the worker goes on to the next queued item. -/
theorem claim_C10 (tp : Bool) (rest : List PollStep) (pOk : Bool) (envs : List ItemEnv) :
    reportedPending ⟨tp, false⟩ = false ∧
    waitExitInfo (⟨tp, false⟩ :: rest) = some tp ∧
    runWorker (⟨pOk, true, ⟨tp, false⟩ :: rest⟩ :: envs)
      = itemTrace ⟨pOk, true, ⟨tp, false⟩ :: rest⟩ ++ runWorker envs :=
  ⟨rfl, rfl, rfl⟩

/-- C2: evaluation of the worker at a failing input.  For a dequeued item
whose signature fails to parse, the worker logs the parse error but does
not drop the item: it still submits a completion transaction (with the
components the failed parse returned) and then waits on it. -/
theorem claim_C2_eval :
    itemTrace ⟨false, true, [⟨false, true⟩]⟩
      = [WEv.parseError, WEv.submit true, WEv.waitExit false] ∧
    WEv.submit true ∈ itemTrace ⟨false, false, []⟩ := by
  decide

/-- C5 counterexample: a stored record for address `[1]` in the Funded
state, after a Created event for `[1]` is merged, is stored with state
Pending — the state regresses. -/
theorem claim_C5_counterexample :
    storeGet [([1], JobBytes.good ⟨[1], [2], .funded, false, []⟩)] [1]
      = some (JobBytes.good ⟨[1], [2], JobState.funded, false, []⟩) ∧
    storeGet (applyCreated [([1], JobBytes.good ⟨[1], [2], .funded, false, []⟩)] [1] [2]) [1]
      = some (JobBytes.good ⟨[1], [2], JobState.pending, false, []⟩) := by
  decide

/-- A single event that is not a Created event for `a` keeps the record
at `a` (when present and decodable) in the Funded state. -/
theorem fundedAt_applyEv (s : Store) (a : Bytes) (e : StoreEv)
    (h : fundedAt s a) (he : isCreatedAt a e = false) :
    fundedAt (applyEv s e) a := by
  cases e with
  | created b c =>
      have hb : ¬b = a := by
        simpa [isCreatedAt] using he
      intro j hj
      simp only [applyEv, applyCreated_eq] at hj
      rw [storeGet_storePut_ne s b a _ (Ne.symm hb)] at hj
      exact h j hj
  | funded b =>
      by_cases hb : b = a
      · subst hb
        intro j hj
        simp only [applyEv, applyFunded_eq] at hj
        rw [storeGet_storePut_self] at hj
        simp only [decodeStored] at hj
        cases hj
        rfl
      · intro j hj
        simp only [applyEv, applyFunded_eq] at hj
        rw [storeGet_storePut_ne s b a _ (Ne.symm hb)] at hj
        exact h j hj
  | completed b =>
      by_cases hb : b = a
      · subst hb
        intro j hj
        simp only [applyEv, applyCompleted] at hj
        rw [storeGet_storeDel_self] at hj
        simp [decodeStored] at hj
      · intro j hj
        simp only [applyEv, applyCompleted] at hj
        rw [storeGet_storeDel_ne s b a (Ne.symm hb)] at hj
        exact h j hj

/-- C5 (amended): a Funded merge never yields a Pending record, and
Completed only deletes; so along any event sequence containing no Created
event for the address, a record observed Funded never regresses to
Pending.  (A Created event for the address, however, always resets the
stored state to Pending — see the counterexample.) -/
theorem claim_C5 (s : Store) (a : Bytes) (evs : List StoreEv) :
    fundedAt s a → (∀ e ∈ evs, isCreatedAt a e = false) →
    fundedAt (applyEvs s evs) a := by
  induction evs generalizing s with
  | nil => exact fun h0 _ => h0
  | cons e rest ih =>
      intro h0 hevs
      exact ih (applyEv s e)
        (fundedAt_applyEv s a e h0 (hevs e (List.mem_cons_self e rest)))
        (fun e' he' => hevs e' (List.mem_cons_of_mem e he'))

/-- C5 witness: a Funded record for `[1]` stays Funded across a Funded
event for `[1]` and a Completed event for another address. -/
theorem claim_C5_witness :
    fundedAt
      (applyEvs [([1], JobBytes.good ⟨[1], [2], JobState.funded, false, []⟩)]
        [StoreEv.funded [1], StoreEv.completed [3]]) [1] :=
  claim_C5 [([1], JobBytes.good ⟨[1], [2], JobState.funded, false, []⟩)] [1]
    [StoreEv.funded [1], StoreEv.completed [3]]
    (fun j hj => by cases hj; rfl) (by decide)

/-- C7 counterexample: a record whose stored bytes fail to decode is
overwritten by a Created merge — the decode error is silently discarded
and the merge proceeds from the zero record. -/
theorem claim_C7_counterexample :
    applyCreated [([1], JobBytes.corrupt)] [1] [2] ≠ [([1], JobBytes.corrupt)] ∧
    storeGet (applyCreated [([1], JobBytes.corrupt)] [1] [2]) [1]
      = some (JobBytes.good ⟨[1], [2], JobState.pending, false, []⟩) := by
  decide

/-- C7 (amended): an encode (marshal) failure abandons the write for
either event kind, leaving the store unchanged; but a decode failure is
not detected — the stored bytes are overwritten by the event's fields
overlaid on the zero record. -/
theorem claim_C7 (marshal : Job → Option JobBytes) (s : Store) (a c : Bytes) :
    (marshal (mergeCreatedJob (decodeStored (storeGet s a)) a c) = none →
      applyCreatedM marshal s a c = s) ∧
    (marshal (mergeFundedJob (decodeStored (storeGet s a)) a) = none →
      applyFundedM marshal s a = s) ∧
    (storeGet s a = some .corrupt →
      storeGet (applyCreated s a c) a = some (.good (mergeCreatedJob none a c)) ∧
      storeGet (applyFunded s a) a = some (.good (mergeFundedJob none a))) := by
  refine ⟨?_, ?_, ?_⟩
  · intro hm
    unfold applyCreatedM
    dsimp only
    rw [hm]
  · intro hm
    unfold applyFundedM
    dsimp only
    rw [hm]
  · intro hc
    constructor
    · rw [applyCreated_eq, hc]
      simp only [decodeStored]
      exact storeGet_storePut_self s a _
    · rw [applyFunded_eq, hc]
      simp only [decodeStored]
      exact storeGet_storePut_self s a _

/-- C7 witness: a failing marshaller leaves the store unchanged; a
corrupt stored blob is overwritten by the merge of a Created event. -/
theorem claim_C7_witness :
    applyCreatedM (fun _ => none) [([1], JobBytes.corrupt)] [1] [2]
      = [([1], JobBytes.corrupt)] ∧
    storeGet (applyCreated [([1], JobBytes.corrupt)] [1] [2]) [1]
      = some (JobBytes.good (mergeCreatedJob none [1] [2])) :=
  ⟨(claim_C7 (fun _ => none) [([1], JobBytes.corrupt)] [1] [2]).1 rfl,
   ((claim_C7 realMarshal [([1], JobBytes.corrupt)] [1] [2]).2.2 rfl).1⟩

/-! ## Single-flight lemmas for the submission worker -/

theorem flightOK_append (xs : List WEv) :
    ∀ (n : Nat) (ys : List WEv),
      flightOK n (xs ++ ys) = (flightOK n xs && flightOK (countAfter n xs) ys) := by
  induction xs with
  | nil =>
      intro n ys
      simp [flightOK, countAfter]
  | cons e xs ih =>
      intro n ys
      simp only [List.cons_append, flightOK, List.append_eq]
      rw [ih]
      simp [countAfter, Bool.and_assoc]

/-- If every status query during the wait succeeds, the wait either never
exits or exits only at a poll where the transaction was genuinely no
longer pending. -/
theorem waitExitInfo_honest (polls : List PollStep)
    (h : ∀ p ∈ polls, p.queryOk = true) :
    waitExitInfo polls = none ∨ waitExitInfo polls = some false := by
  induction polls with
  | nil => exact Or.inl rfl
  | cons p rest ih =>
      have hp : p.queryOk = true := h p (List.mem_cons_self p rest)
      have hrep : reportedPending p = p.truePending := by
        simp [reportedPending, hp]
      cases htp : p.truePending with
      | true =>
          have : waitExitInfo (p :: rest) = waitExitInfo rest := by
            simp [waitExitInfo, hrep, htp]
          rw [this]
          exact ih (fun q hq => h q (List.mem_cons_of_mem p hq))
      | false =>
          right
          simp [waitExitInfo, hrep, htp]

/-- With honest status queries, one item's trace keeps the outstanding
count at most 1 (starting from 0), and returns it to 0 unless the item
blocks the worker forever. -/
theorem itemTrace_flight (e : ItemEnv) (h : ∀ p ∈ e.polls, p.queryOk = true) :
    flightOK 0 (itemTrace e) = true ∧
    (itemBlocks e = false → countAfter 0 (itemTrace e) = 0) := by
  rcases waitExitInfo_honest e.polls h with hw | hw <;>
    cases hp : e.parseOk <;> cases hs : e.submitOk <;>
      simp [itemTrace, itemBlocks, hp, hs, hw, flightOK, countAfter, stepCount]

/-- C6 (amended): the worker handles queue items strictly one at a time,
and — provided every confirmation-status query succeeds — it reaches the
next item only after a poll reports the previous transaction mined, so at
every instant of its trace at most one unconfirmed completion transaction
is outstanding, for any queue contents.  (An erroring status query ends
the wait early and voids the bound — see the counterexample and C10.) -/
theorem claim_C6 (envs : List ItemEnv)
    (h : ∀ e ∈ envs, ∀ p ∈ e.polls, p.queryOk = true) :
    flightOK 0 (runWorker envs) = true := by
  induction envs with
  | nil => rfl
  | cons e rest ih =>
      have he : ∀ p ∈ e.polls, p.queryOk = true :=
        fun p hp => h e (List.mem_cons_self e rest) p hp
      obtain ⟨h1, h2⟩ := itemTrace_flight e he
      show flightOK 0 (itemTrace e ++ (if itemBlocks e then [] else runWorker rest)) = true
      rw [flightOK_append, h1]
      cases hb : itemBlocks e with
      | true => simp [flightOK]
      | false =>
          rw [h2 hb]
          simpa using ih (fun e' he' p hp => h e' (List.mem_cons_of_mem e he') p hp)

/-- C6 counterexample: queue of two items; the first submission succeeds
and its only status poll errors while the transaction is in truth still
pending, so the worker leaves the wait and submits the second item — two
unconfirmed transactions are outstanding at once. -/
theorem claim_C6_counterexample :
    flightOK 0 (runWorker
      [⟨true, true, [⟨true, false⟩]⟩, ⟨true, true, [⟨false, true⟩]⟩]) = false := by
  decide

/-- C6 witness: two queued items whose status polls all succeed (the
first reports pending once, then mined) keep at most one transaction in
flight. -/
theorem claim_C6_witness :
    flightOK 0 (runWorker
      [⟨true, true, [⟨true, true⟩, ⟨false, true⟩]⟩, ⟨true, true, [⟨false, true⟩]⟩]) = true :=
  claim_C6 [⟨true, true, [⟨true, true⟩, ⟨false, true⟩]⟩, ⟨true, true, [⟨false, true⟩]⟩]
    (by decide)

end SnetDaemon
